import Mathlib

/-!
Verification development for the incremental parse synchronization engine of
`src/vs/editor/browser/services/treeSitterServices/treeSitterTree.ts`
(class `TreeSitterTree`).

The TypeScript class is single-threaded JavaScript: all interleaving happens
through the deterministic event loop (a FIFO microtask queue for promise
reactions, and an idle-callback queue for `runWhenIdle` slices).  We embed the
class as an explicit state machine over that event loop:

* `Edit`, `Tree` mirror `Parser.Edit` and `Parser.Tree`.  `Parser.Tree` is an
  opaque external object; we model exactly the observations the engine makes
  of it: its identity (`id`, reference equality), the version of the text it
  was parsed from (`srcVersion`; the live document is abstracted as a version
  counter bumped once per registered change), and the trace of `tree.edit`
  calls applied to it since it was produced (`editsApplied`; `tree.edit`
  mutates in place, so the identity is preserved).
* `EngineState` carries the fields of the class (`_tree`, `_edits`,
  `_nCallsParseTree`, `_currentParseOperation`, the parser's persistent
  timeout configured by `setTimeoutMicros`) together with the event loop
  (promise table, microtask queue, idle queue) and the environment: an
  `oracle` prescribing the outcome of each `parser.parse` invocation
  (success, or an exception — timeout or structural, the `catch` blocks never
  distinguish them), and `idleTimes`, the `timeRemaining()` values of
  successive idle slices.
* `Cont` defunctionalizes the continuations of the async methods:
  `afterAwait` is the body of `_parseTree` after `await
  this._currentParseOperation`; `thenCb` is the callback passed to
  `myParseOperation.then(...)` (whose resulting promise the source discards);
  `adopt` resolves a caller's promise with the operation's value (the
  `return this._currentParseOperation`); `treeSet` is the
  `.then((tree) => { this._tree = tree; resolve(tree) })` inside the catch of
  `_tryParseSync`; `idle` is one `runWhenIdle` slice of `_parseAsync`;
  `countRead` is the `.then(() => Promise.resolve(this._nCallsParseTree))` of
  `parseTreeAndCountCalls`.

Every invocation of the external parser is logged in `invocations` with the
text source it reads from (live document at some version, or a frozen
snapshot), the baseline tree handed to it, and the timeout in effect.
-/

set_option maxRecDepth 100000
set_option maxHeartbeats 2000000

namespace TreeSitter

/-- A zero-based row/column point, mirroring `Parser.Point`. -/
structure Point where
  row : Nat
  column : Nat
deriving DecidableEq, Repr

/-- A position delta, mirroring `Parser.Edit` as built by `registerTreeEdits`. -/
structure Edit where
  startPosition : Point
  oldEndPosition : Point
  newEndPosition : Point
  startIndex : Nat
  oldEndIndex : Nat
  newEndIndex : Nat
deriving DecidableEq, Repr

/-- The engine's view of an opaque `Parser.Tree`: its reference identity, the
document version its text came from, and the trace of `tree.edit` calls
applied to it in order. -/
structure Tree where
  id : Nat
  srcVersion : Nat
  editsApplied : List Edit
deriving DecidableEq, Repr

/-- Model of `tree.edit(edit)`: in-place mutation, so the identity is kept and the edit
is appended to the applied trace. -/
def Tree.edit (t : Tree) (e : Edit) : Tree :=
  { t with editsApplied := t.editsApplied ++ [e] }

/-- Outcome of one `this._parser.parse(...)` call, prescribed by the test
environment: success, or a thrown error.  The boolean distinguishes a
time-budget abort from a structural failure, but no `catch` in the source ever
inspects it. -/
inductive ParseOutcome where
  | ok : ParseOutcome
  | err : Bool → ParseOutcome
deriving DecidableEq, Repr

/-- The text source a parser invocation reads from: the live model at its
current version, or a frozen snapshot captured at some version. -/
inductive TextSource where
  | live : Nat → TextSource
  | snap : Nat → TextSource
deriving DecidableEq, Repr

/-- The document version a text source exposes. -/
def TextSource.version : TextSource → Nat
  | .live v => v
  | .snap v => v

/-- Log entry for one `this._parser.parse(...)` invocation. -/
structure Invocation where
  source : TextSource
  baseline : Option Tree
  timeoutMicros : Option Nat
deriving DecidableEq, Repr

/-- Defunctionalized continuations of the async control flow. -/
inductive Cont where
  | afterAwait : Nat → Bool → Cont
  | thenCb : Bool → Nat → Cont
  | adopt : Nat → Cont
  | treeSet : Nat → Cont
  | idle : Nat → Option Tree → Nat → Cont
  | countRead : Cont
deriving DecidableEq, Repr

/-- A promise of a `Parser.Tree`: pending (`value = none`) with registered
reactions, or settled. -/
structure Prom where
  value : Option Tree
  callbacks : List Cont
deriving Repr

/-- Full state: the class fields, the event loop, and the environment. -/
structure EngineState where
  liveVersion : Nat
  tree : Option Tree
  edits : List Edit
  nCalls : Nat
  currentOp : Option Nat
  timeout : Option Nat
  promises : List Prom
  micro : List (Cont × Option Tree)
  idleQ : List Cont
  oracle : List ParseOutcome
  idleTimes : List Nat
  invocations : List Invocation
  nextTreeId : Nat
  countResult : Option Nat
deriving Repr

/-- Settle promise `p` with value `v`: its reactions move to the microtask
queue in registration order. -/
def settleP (s : EngineState) (p : Nat) (v : Tree) : EngineState :=
  match s.promises.get? p with
  | none => s
  | some pr =>
      { s with
        promises := s.promises.set p ⟨some v, []⟩,
        micro := s.micro ++ pr.callbacks.map (fun k => (k, some v)) }

/-- Register reaction `k` on promise `p` (`.then` / `await`): enqueued at once
if already settled, recorded otherwise. -/
def subscr (s : EngineState) (p : Nat) (k : Cont) : EngineState :=
  match s.promises.get? p with
  | none => s
  | some pr =>
      match pr.value with
      | some v => { s with micro := s.micro ++ [(k, some v)] }
      | none => { s with promises := s.promises.set p ⟨none, pr.callbacks ++ [k]⟩ }

/-- Allocate a fresh promise, settled with `v` when `v = some _`. -/
def newProm (s : EngineState) (v : Option Tree) : Nat × EngineState :=
  (s.promises.length, { s with promises := s.promises ++ [⟨v, []⟩] })

/-- The settled value of promise `p`, if any. -/
def promValue (s : EngineState) (p : Nat) : Option Tree :=
  match s.promises.get? p with
  | none => none
  | some pr => pr.value

/-- Model of `updateAndGetTree()`: if there is no tree, return `undefined` leaving the
buffer untouched; otherwise apply every buffered edit to the tree in order via
`tree.edit` and clear the buffer.  This runs inside a single continuation of
the single-threaded event loop, so no other code can observe an intermediate
buffer state. -/
def updateAndGetTree (s : EngineState) : Option Tree × EngineState :=
  match s.tree with
  | none => (none, s)
  | some t =>
      let t' := s.edits.foldl Tree.edit t
      (some t', { s with tree := some t', edits := [] })

/-- One `this._parser.parse(textSource, baseline)` call: consumes the next
oracle outcome, logs the invocation with the timeout currently configured on
the parser, and on success produces a fresh tree whose text is the source's
current content. -/
def invokeParser (s : EngineState) (src : TextSource) (baseline : Option Tree) :
    ParseOutcome × Option Tree × EngineState :=
  let outcome := s.oracle.headD .ok
  let s' := { s with
    oracle := s.oracle.tail,
    invocations := s.invocations ++ [⟨src, baseline, s.timeout⟩] }
  match outcome with
  | .ok =>
      let t : Tree := ⟨s'.nextTreeId, src.version, []⟩
      (.ok, some t, { s' with nextTreeId := s'.nextTreeId + 1 })
  | .err b => (.err b, none, s')

/-- Model of `_tryParseSync(asynchronous)`: in asynchronous mode configure a 10000µs
budget (synchronous mode leaves the parser's budget as it is); drain the edit
buffer onto the tree; attempt the parse against the live model.  On success
store the new tree and return a settled promise.  On any thrown error, take a
snapshot of the live model (`createTextModel` + `createSnapshot`), schedule
`_parseAsync` against that snapshot, and return a promise settled once the
fallback's `.then` has stored the resulting tree.  Returns the index of the
operation's promise. -/
def tryParseSync (s : EngineState) (mode : Bool) : Nat × EngineState :=
  let s0 := if mode then { s with timeout := some 10000 } else s
  let (baseline, s1) := updateAndGetTree s0
  let (outcome, newTree, s2) := invokeParser s1 (.live s1.liveVersion) baseline
  match outcome, newTree with
  | .ok, some t =>
      newProm { s2 with tree := some t } (some t)
  | _, _ =>
      let snapV := s2.liveVersion
      let (q, s3) := newProm s2 none
      let (opP, s4) := newProm s3 none
      let s5 := subscr s4 q (.treeSet opP)
      (opP, { s5 with idleQ := s5.idleQ ++ [.idle snapV baseline q] })

/-- Whether `_parseTree` decides a parse is required: no tree yet, or pending
edits (`!this._tree || this._edits.length !== 0`). -/
def parseNeeded (s : EngineState) : Bool :=
  s.tree.isNone || s.edits.length != 0

/-- The body of `_parseTree` after `await this._currentParseOperation`: on the
parse-required path it runs `_tryParseSync`, records it as the current
operation, registers the `.then` callback (whose chained promise the source
discards), bumps the call counter, and returns the operation's promise to the
caller (modelled as the `adopt` reaction resolving `callerP` with the
operation's value).  On the cache-hit path it bumps the counter and resolves
the caller with the current tree. -/
def afterAwaitRun (s : EngineState) (callerP : Nat) (mode : Bool) : EngineState :=
  if parseNeeded s then
    let (opP, s1) := tryParseSync s mode
    let s2 := { s1 with currentOp := some opP }
    let s3 := subscr s2 opP (.thenCb mode opP)
    let s4 := { s3 with nCalls := s3.nCalls + 1 }
    subscr s4 opP (.adopt callerP)
  else
    let s1 := { s with nCalls := s.nCalls + 1 }
    match s1.tree with
    | some t => settleP s1 callerP t
    | none => s1

/-- Entry of `_parseTree(asynchronous)`: allocate the caller's result promise
and suspend at `await this._currentParseOperation` — an immediate microtask
when the field is `undefined`, a reaction on the operation's promise
otherwise. -/
def startParseTreeCall (s : EngineState) (mode : Bool) : Nat × EngineState :=
  let (callerP, s1) := newProm s none
  match s1.currentOp with
  | none => (callerP, { s1 with micro := s1.micro ++ [(.afterAwait callerP mode, none)] })
  | some p => (callerP, subscr s1 p (.afterAwait callerP mode))

/-- Public `parseTree(asynchronous)`: reset `_nCallsParseTree` and delegate. -/
def callParseTree (s : EngineState) (mode : Bool) : Nat × EngineState :=
  startParseTreeCall { s with nCalls := 0 } mode

/-- Public `parseTreeAndCountCalls(asynchronous)`: as `parseTree`, plus a
`.then` reading `_nCallsParseTree` once the result promise resolves. -/
def callParseTreeAndCountCalls (s : EngineState) (mode : Bool) : Nat × EngineState :=
  let (callerP, s1) := startParseTreeCall { s with nCalls := 0 } mode
  (callerP, subscr s1 callerP .countRead)

/-- Run one continuation. -/
def runCont (s : EngineState) (k : Cont) (payload : Option Tree) : EngineState :=
  match k with
  | .afterAwait callerP mode => afterAwaitRun s callerP mode
  | .thenCb mode opP =>
      let s1 := if s.currentOp = some opP then { s with currentOp := none } else s
      if s1.edits.length != 0 then
        (startParseTreeCall s1 mode).2
      else
        { s1 with nCalls := s1.nCalls + 1 }
  | .adopt callerP =>
      match payload with
      | some v => settleP s callerP v
      | none => s
  | .treeSet opP =>
      match payload with
      | some v => settleP { s with tree := some v } opP v
      | none => s
  | .countRead => { s with countResult := some s.nCalls }
  | .idle snapV baseline q =>
      let t := s.idleTimes.headD 0
      let s1 := { s with idleTimes := s.idleTimes.tail, timeout := some (t * 1000) }
      let (outcome, newTree, s2) := invokeParser s1 (.snap snapV) baseline
      match outcome, newTree with
      | .ok, some tr => settleP { s2 with tree := some tr } q tr
      | _, _ => { s2 with idleQ := s2.idleQ ++ [.idle snapV baseline q] }

/-- Process the head of the microtask queue. -/
def stepMicro (s : EngineState) : EngineState :=
  match s.micro with
  | [] => s
  | (k, v) :: rest => runCont { s with micro := rest } k v

/-- Run microtasks to quiescence (fuel-bounded; a step is taken only while the
queue is non-empty, so surplus fuel is harmless). -/
def drainMicro : Nat → EngineState → EngineState
  | 0, s => s
  | n + 1, s =>
      match s.micro with
      | [] => s
      | _ => drainMicro n (stepMicro s)

/-- Run one idle callback (the host grants an idle slice once the microtask
queue is empty). -/
def stepIdle (s : EngineState) : EngineState :=
  match s.idleQ with
  | [] => s
  | k :: rest => runCont { s with idleQ := rest } k none

/-- A document change event: the model's content version advances and the
`onDidChangeContent` listener appends the corresponding edit to `_edits`. -/
def registerEditEvent (s : EngineState) (e : Edit) : EngineState :=
  { s with liveVersion := s.liveVersion + 1, edits := s.edits ++ [e] }

/-- A quiescent engine state: no operation in flight, empty event loop, with
the given document version, tree, pending edits, configured parser timeout,
and environment. -/
def mkQuiescent (v : Nat) (t : Option Tree) (es : List Edit) (tm : Option Nat)
    (oracle : List ParseOutcome) (times : List Nat) : EngineState :=
  { liveVersion := v, tree := t, edits := es, nCalls := 0, currentOp := none,
    timeout := tm, promises := [], micro := [], idleQ := [], oracle := oracle,
    idleTimes := times, invocations := [], nextTreeId := 100,
    countResult := none }

/-- Iterate `stepIdle` (the host granting successive idle slices once the
microtask queue is empty). -/
def iterIdle : Nat → EngineState → EngineState
  | 0, s => s
  | n + 1, s => iterIdle n (stepIdle s)

/-- Modelled from the spec: the effect of applying one Edit to a node-span
offset.  `tree.edit` itself is external (web-tree-sitter, not in this
repository); §3 and §6 of the spec describe it as shifting internal node
spans per one Edit record, and §8 requires `apply(edits)` to be
order-sensitive.  Offsets before the edited range are unchanged, offsets
inside the replaced range collapse to its new end, offsets after it shift by
the length delta. -/
def shiftOffset (e : Edit) (o : Nat) : Nat :=
  if o < e.startIndex then o
  else if o < e.oldEndIndex then e.newEndIndex
  else o - e.oldEndIndex + e.newEndIndex

/-- Apply a sequence of Edits to a node-span offset, left to right. -/
def applyEditsToOffset (es : List Edit) (o : Nat) : Nat :=
  es.foldl (fun acc e => shiftOffset e acc) o

/-! ### Text-model adapters (`registerTreeEdits` input side, `_retrieveTextAtPosition`)

`ITextModel` is an external collaborator: the engine only uses
`getPositionAt`, `getValueInRange` and the change-notification payloads.  We
embed exactly those access points. -/

/-- A 1-based editor position as returned by `ITextModel.getPositionAt`. -/
structure ModelPosition where
  lineNumber : Nat
  column : Nat
deriving DecidableEq, Repr

/-- The 1-based range carried by a document change notification. -/
structure ChangeRange where
  startLineNumber : Nat
  startColumn : Nat
  endLineNumber : Nat
  endColumn : Nat
deriving DecidableEq, Repr

/-- One entry of `IModelContentChangedEvent.changes`. -/
structure ModelContentChange where
  range : ChangeRange
  rangeOffset : Nat
  rangeLength : Nat
  text : String
deriving DecidableEq, Repr

/-- The Edit built from one document change inside `registerTreeEdits`:
1-based line/column converted to zero-based row/column, the new end position
obtained from the live model's `getPositionAt` at the moment the change event
fires (passed here as `getPositionAt`). -/
def mkTreeEdit (getPositionAt : Nat → ModelPosition) (change : ModelContentChange) : Edit :=
  let newEndPositionFromModel := getPositionAt (change.rangeOffset + change.text.length)
  { startPosition := ⟨change.range.startLineNumber - 1, change.range.startColumn - 1⟩,
    oldEndPosition := ⟨change.range.endLineNumber - 1, change.range.endColumn - 1⟩,
    newEndPosition := ⟨newEndPositionFromModel.lineNumber - 1,
                       newEndPositionFromModel.column - 1⟩,
    startIndex := change.rangeOffset,
    oldEndIndex := change.rangeOffset + change.rangeLength,
    newEndIndex := change.rangeOffset + change.text.length }

/-- Model of `registerTreeEdits(contentChangeEvent)`: push one Edit per change, in
event order. -/
def registerTreeEdits (getPositionAt : Nat → ModelPosition) (edits : List Edit)
    (changes : List ModelContentChange) : List Edit :=
  changes.foldl (fun acc change => acc ++ [mkTreeEdit getPositionAt change]) edits

/-- The face of `ITextModel` used by `_retrieveTextAtPosition`: a content
buffer with offset-to-position conversion and range reads
(`Range.fromPositions` is collapsed into the two position arguments). -/
structure TextModelAPI where
  content : List Char
  getPositionAt : Nat → ModelPosition
  getValueInRange : ModelPosition → ModelPosition → List Char

/-- The external `ITextModel` contract relating its two accessors to the
underlying content: reading the range between the positions of offsets `a`
and `b` yields the content slice from `a` to `b`. -/
def TextModelAPI.Coherent (m : TextModelAPI) : Prop :=
  ∀ a b : Nat, m.getValueInRange (m.getPositionAt a) (m.getPositionAt b) =
    (m.content.take b).drop a

/-- Model of `_retrieveTextAtPosition(model, startIndex, _startPoint, endIndex)`: when
no ending offset is supplied it defaults to `startIndex + 5000`, then both
offsets are mapped through `getPositionAt` and the range is read. -/
def retrieveTextAtPosition (model : TextModelAPI) (startIndex : Nat)
    (_startPoint : Option Point) (endIndex : Option Nat) : List Char :=
  let startPosition := model.getPositionAt startIndex
  let endIndexV : Nat :=
    match endIndex with
    | some e => e
    | none => startIndex + 5000
  let endPosition := model.getPositionAt endIndexV
  model.getValueInRange startPosition endPosition

/-! ### Concrete scenario inputs -/

/-- A sample tree standing for the engine's current tree. -/
def tree0 : Tree := ⟨0, 0, []⟩

/-- A sample edit (insert one character at offset 0). -/
def edit1 : Edit := ⟨⟨0, 0⟩, ⟨0, 0⟩, ⟨0, 1⟩, 0, 0, 1⟩

/-- A second sample edit (insert one character at offset 2). -/
def edit2 : Edit := ⟨⟨0, 2⟩, ⟨0, 2⟩, ⟨0, 3⟩, 2, 2, 3⟩

/-- An edit deleting the range [5, 10). -/
def editDel : Edit := ⟨⟨0, 5⟩, ⟨0, 10⟩, ⟨0, 5⟩, 5, 10, 5⟩

/-- An edit inserting three characters at offset 0. -/
def editIns : Edit := ⟨⟨0, 0⟩, ⟨0, 0⟩, ⟨0, 3⟩, 0, 0, 3⟩

/-- Scenario for the fallback path: a current tree at version 0, one pending
edit (document already at version 1), the synchronous attempt throws, and
idle slices are available.  The oracle settles the remaining invocations as
given. -/
def fallbackStart (oracle : List ParseOutcome) (times : List Nat) : EngineState :=
  mkQuiescent 1 (some tree0) [edit1] none oracle times

/-- C3 scenario: an asynchronous `parseTree` call configures the 10000µs
budget; afterwards an edit arrives and `parseTree(false)` — synchronous
mode — is called on the same engine. -/
def scenarioC3 : EngineState :=
  let s2 := drainMicro 20 (callParseTree (mkQuiescent 0 none [] none [.ok, .ok] []) true).2
  let s3 := registerEditEvent s2 edit1
  drainMicro 20 (callParseTree s3 false).2

/-- C1 scenario up to the point where the fallback is pending and an edit has
arrived mid-fallback: the synchronous attempt throws, the fallback slice is
queued, then `edit2` is registered against the live document.  The first
component is the caller's promise id. -/
def scenarioC1 : Nat × EngineState :=
  let r := callParseTree (fallbackStart [.err true, .ok, .ok] [5, 5]) true
  (r.1, registerEditEvent (drainMicro 10 r.2) edit2)

/-- C10 scenario: no tree yet (first-ever parse) with one pending edit. -/
def scenarioC10 : Nat × EngineState :=
  callParseTree (mkQuiescent 1 none [edit1] none [.ok, .ok] []) true

/-- State after `parseTree(true)` on `fallbackStart`: the synchronous attempt
consumed the first oracle entry and threw, so the fallback slice is pending.
Parameterized by the error kind of the attempt and the remaining environment. -/
def fallbackPending (k : Bool) (rest : List ParseOutcome) (times : List Nat) : EngineState :=
  drainMicro 10 (callParseTree (fallbackStart (.err k :: rest) times) true).2

/-- C9 scenario start: synchronous attempt throws with kind `k`; the next
`kinds.length` idle slices throw with the given kinds; the following slice
succeeds. -/
def scenarioC9start (k : Bool) (kinds : List Bool) : EngineState :=
  fallbackPending k (kinds.map .err ++ [.ok]) (List.replicate (kinds.length + 1) 5)

/-- C9 scenario: after the failing synchronous attempt, run the fallback
loop through `kinds.length` failing idle slices, then the succeeding slice,
then drain the microtasks so the caller's promise (index 0) resolves. -/
def scenarioC9 (k : Bool) (kinds : List Bool) : EngineState :=
  drainMicro 10 (stepIdle (iterIdle kinds.length (scenarioC9start k kinds)))

/-- The explicit fallback-pending state that `scenarioC9start` reaches (see
`fallbackPending_eq` below): slice queued against the version-1 snapshot,
`kinds.length` failing slice outcomes ahead, one idle budget per slice. -/
def pendingC9 (kinds : List Bool) : EngineState :=
  { liveVersion := 1, tree := some ⟨0, 0, [edit1]⟩, edits := [], nCalls := 1,
    currentOp := some 2, timeout := some 10000,
    promises := [⟨none, []⟩, ⟨none, [.treeSet 2]⟩, ⟨none, [.thenCb true 2, .adopt 0]⟩],
    micro := [], idleQ := [.idle 1 (some ⟨0, 0, [edit1]⟩) 1],
    oracle := kinds.map .err ++ [.ok],
    idleTimes := List.replicate (kinds.length + 1) 5,
    invocations := [⟨.live 1, some ⟨0, 0, [edit1]⟩, some 10000⟩],
    nextTreeId := 100, countResult := none }

/-- C7 scenario: the synchronous attempt throws; live edits `es1` arrive,
then a first slice throws; live edits `es2` arrive, then a second slice
succeeds. -/
def scenarioC7 (es1 es2 : List Edit) : EngineState :=
  let s3 := es1.foldl registerEditEvent (fallbackPending true [.err false, .ok] [5, 5])
  let s5 := es2.foldl registerEditEvent (stepIdle s3)
  stepIdle s5

/-- A single-line concrete `ITextModel`: offset `o` is line 1, column `o+1`,
and a range read slices the content between the 1-based columns. -/
def lineModel : TextModelAPI :=
  { content := ['a', 'b', 'c', 'd'],
    getPositionAt := fun o => ⟨1, o + 1⟩,
    getValueInRange := fun p q => ((['a', 'b', 'c', 'd'].take (q.column - 1)).drop (p.column - 1)) }

/-! ### Helper lemmas -/

/-- Applying a batch of edits with `tree.edit` keeps the tree's identity and
source version and appends the batch, in order, to the applied trace. -/
lemma foldl_tree_edit (es : List Edit) (t : Tree) :
    es.foldl Tree.edit t = ⟨t.id, t.srcVersion, t.editsApplied ++ es⟩ := by
  induction es generalizing t with
  | nil => simp
  | cons e es ih => simp [Tree.edit, ih]

/-- Lemma: `registerTreeEdits` appends exactly one Edit per change, in event order. -/
lemma registerTreeEdits_eq (g : Nat → ModelPosition) (edits : List Edit)
    (changes : List ModelContentChange) :
    registerTreeEdits g edits changes = edits ++ changes.map (mkTreeEdit g) := by
  induction changes generalizing edits with
  | nil => simp [registerTreeEdits]
  | cons c cs ih =>
      have h := ih (edits ++ [mkTreeEdit g c])
      simp only [registerTreeEdits, List.foldl_cons] at h ⊢
      rw [h, List.append_assoc]
      rfl

/-- Registering document changes touches only the live version and the edit
buffer; the event loop, environment, tree, promises and logs are untouched. -/
lemma foldRegister_frame (es : List Edit) (s : EngineState) :
    (es.foldl registerEditEvent s).idleQ = s.idleQ ∧
    (es.foldl registerEditEvent s).oracle = s.oracle ∧
    (es.foldl registerEditEvent s).idleTimes = s.idleTimes ∧
    (es.foldl registerEditEvent s).invocations = s.invocations ∧
    (es.foldl registerEditEvent s).timeout = s.timeout ∧
    (es.foldl registerEditEvent s).promises = s.promises ∧
    (es.foldl registerEditEvent s).tree = s.tree ∧
    (es.foldl registerEditEvent s).micro = s.micro ∧
    (es.foldl registerEditEvent s).nextTreeId = s.nextTreeId := by
  induction es generalizing s with
  | nil => exact ⟨rfl, rfl, rfl, rfl, rfl, rfl, rfl, rfl, rfl⟩
  | cons e es ih => exact ih (registerEditEvent s e)

/-- Settling a promise leaves the invocation log unchanged. -/
lemma settleP_invocations (s : EngineState) (p : Nat) (v : Tree) :
    (settleP s p v).invocations = s.invocations := by
  unfold settleP
  cases s.promises.get? p <;> rfl

/-- An idle slice whose parse throws logs one snapshot invocation under the
slice's budget and re-enqueues itself (the `catch` recursion of
`_parseAsync`). -/
lemma stepIdle_err (s : EngineState) (a : Nat) (b : Option Tree) (q : Nat) (kk : Bool)
    (rest : List ParseOutcome) (t0 : Nat) (ts : List Nat)
    (h2 : s.idleQ = [.idle a b q]) (h3 : s.oracle = .err kk :: rest)
    (h4 : s.idleTimes = t0 :: ts) :
    stepIdle s =
      { s with idleQ := [.idle a b q], oracle := rest, idleTimes := ts,
               timeout := some (t0 * 1000),
               invocations := s.invocations ++ [⟨.snap a, b, some (t0 * 1000)⟩] } := by
  cases s
  subst h2 h3 h4
  rfl

/-- Any idle slice logs one invocation reading the frozen snapshot under the
slice's budget, whatever the outcome. -/
lemma stepIdle_invocations (s : EngineState) (a : Nat) (b : Option Tree) (q : Nat)
    (t0 : Nat) (ts : List Nat)
    (h2 : s.idleQ = [.idle a b q]) (h4 : s.idleTimes = t0 :: ts) :
    (stepIdle s).invocations = s.invocations ++ [⟨.snap a, b, some (t0 * 1000)⟩] := by
  cases s
  subst h2 h4
  rename_i orc _ _ _
  cases orc with
  | nil => exact settleP_invocations _ _ _
  | cons o rest =>
      cases o with
      | ok => exact settleP_invocations _ _ _
      | err bb => rfl

/-- Running the fallback loop through `kinds.length` failing slices: each
slice reads the same frozen snapshot with the same baseline, logs one
invocation, and re-enqueues itself; no retry bound is ever consulted. -/
lemma iterIdle_err (kinds : List Bool) :
    ∀ (s : EngineState) (a : Nat) (b : Option Tree) (q : Nat)
      (rest : List ParseOutcome) (m : Nat),
      s.idleQ = [.idle a b q] → s.oracle = kinds.map .err ++ rest →
      s.idleTimes = List.replicate (kinds.length + m) 5 →
      iterIdle kinds.length s =
        { s with oracle := rest,
                 idleTimes := List.replicate m 5,
                 timeout := if kinds = [] then s.timeout else some 5000,
                 invocations := s.invocations ++
                   List.replicate kinds.length ⟨.snap a, b, some 5000⟩ } := by
  induction kinds with
  | nil =>
      intro s a b q rest m h2 h3 h4
      simp only [List.map_nil, List.nil_append] at h3
      simp only [List.length_nil, Nat.zero_add] at h4
      simp only [List.length_nil, List.replicate_zero, List.append_nil, iterIdle,
        if_pos rfl]
      rw [← h3, ← h4]
      simp
  | cons k ks ih =>
      intro s a b q rest m h2 h3 h4
      have h4' : s.idleTimes = 5 :: List.replicate (ks.length + m) 5 := by
        rw [h4, show (k :: ks).length + m = (ks.length + m) + 1 by simp [Nat.add_comm,
          Nat.add_assoc, Nat.add_left_comm], List.replicate_succ]
      have hstep := stepIdle_err s a b q k (ks.map .err ++ rest) 5
        (List.replicate (ks.length + m) 5) h2 (by simpa using h3) h4'
      show iterIdle ks.length (stepIdle s) = _
      rw [hstep, ih _ a b q rest m rfl rfl rfl]
      simp [h2, List.replicate_succ]

/-- The state reached once the synchronous attempt has thrown: the edit was
drained onto the tree, the fallback slice (bound to the version-1 snapshot
and the edited baseline) is queued, the operation promise (index 2) is
pending with the discarded `.then` callback and the caller's adoption
registered, and the caller's promise (index 0) is pending. -/
lemma fallbackPending_eq (k : Bool) (rest : List ParseOutcome) (times : List Nat) :
    fallbackPending k rest times =
      { liveVersion := 1, tree := some ⟨0, 0, [edit1]⟩, edits := [], nCalls := 1,
        currentOp := some 2, timeout := some 10000,
        promises := [⟨none, []⟩, ⟨none, [.treeSet 2]⟩, ⟨none, [.thenCb true 2, .adopt 0]⟩],
        micro := [], idleQ := [.idle 1 (some ⟨0, 0, [edit1]⟩) 1],
        oracle := rest, idleTimes := times,
        invocations := [⟨.live 1, some ⟨0, 0, [edit1]⟩, some 10000⟩],
        nextTreeId := 100, countResult := none } := rfl

/-- Running the successful idle slice from the fallback-pending shape and
draining the microtasks: the slice's tree (parsed from the version-1
snapshot) is stored, the operation promise and the caller's promise resolve
with it, and one snapshot invocation is logged. -/
lemma finalSlice (inv : List Invocation) (tm : Option Nat) :
    promValue (drainMicro 10 (stepIdle
      { liveVersion := 1, tree := some ⟨0, 0, [edit1]⟩, edits := [], nCalls := 1,
        currentOp := some 2, timeout := tm,
        promises := [⟨none, []⟩, ⟨none, [.treeSet 2]⟩, ⟨none, [.thenCb true 2, .adopt 0]⟩],
        micro := [], idleQ := [.idle 1 (some ⟨0, 0, [edit1]⟩) 1],
        oracle := [.ok], idleTimes := [5],
        invocations := inv, nextTreeId := 100, countResult := none })) 0 =
      some ⟨100, 1, []⟩ ∧
    (drainMicro 10 (stepIdle
      { liveVersion := 1, tree := some ⟨0, 0, [edit1]⟩, edits := [], nCalls := 1,
        currentOp := some 2, timeout := tm,
        promises := [⟨none, []⟩, ⟨none, [.treeSet 2]⟩, ⟨none, [.thenCb true 2, .adopt 0]⟩],
        micro := [], idleQ := [.idle 1 (some ⟨0, 0, [edit1]⟩) 1],
        oracle := [.ok], idleTimes := [5],
        invocations := inv, nextTreeId := 100, countResult := none })).tree =
      some ⟨100, 1, []⟩ ∧
    (drainMicro 10 (stepIdle
      { liveVersion := 1, tree := some ⟨0, 0, [edit1]⟩, edits := [], nCalls := 1,
        currentOp := some 2, timeout := tm,
        promises := [⟨none, []⟩, ⟨none, [.treeSet 2]⟩, ⟨none, [.thenCb true 2, .adopt 0]⟩],
        micro := [], idleQ := [.idle 1 (some ⟨0, 0, [edit1]⟩) 1],
        oracle := [.ok], idleTimes := [5],
        invocations := inv, nextTreeId := 100, countResult := none })).invocations =
      inv ++ [⟨.snap 1, some ⟨0, 0, [edit1]⟩, some 5000⟩] := ⟨rfl, rfl, rfl⟩

/-! ### The claims -/

/-- Claim C1 (code bug, evaluated at the failing input): the spec asserts
that when edits are registered while the fallback parse is in progress, the
scheduler folds them in with another incremental parse *before the promise
returned to the caller resolves*.  The code does start that follow-up parse
from the `.then` callback, but the promise produced by that callback chain
is discarded — `_parseTree` returns `this._currentParseOperation` (the
fallback operation itself) — so the caller's promise resolves with the
fallback's tree, parsed from the version-1 snapshot.  Concretely: at the
instant the caller's promise is already settled with the snapshot tree
`⟨100, 1, []⟩`, `edit2` (registered before resolution, taking the live
document to version 2) is still sitting unapplied in the buffer; after the
follow-up parse completes, the engine's private `_tree` holds the version-2
tree `⟨101, 2, []⟩`, but the caller was never handed it. -/
theorem claimC1 :
    (promValue (drainMicro 3 (stepIdle scenarioC1.2)) scenarioC1.1 = some ⟨100, 1, []⟩ ∧
     (drainMicro 3 (stepIdle scenarioC1.2)).edits = [edit2] ∧
     (drainMicro 3 (stepIdle scenarioC1.2)).liveVersion = 2) ∧
    (promValue (drainMicro 10 (stepIdle scenarioC1.2)) scenarioC1.1 = some ⟨100, 1, []⟩ ∧
     (drainMicro 10 (stepIdle scenarioC1.2)).tree = some ⟨101, 2, []⟩ ∧
     (drainMicro 10 (stepIdle scenarioC1.2)).invocations.length = 3) :=
  ⟨⟨rfl, rfl, rfl⟩, ⟨rfl, rfl, rfl⟩⟩

/-- Claim C2: with a current tree and an empty edit buffer, `parseTree`
resolves with the very same tree (same reference), performs no parser
invocation, and `parseTreeAndCountCalls` records exactly 1 — strictly less
than the 2 recorded by a call that required parsing; calling twice with no
intervening edits yields the same tree reference on the second call. -/
theorem claimC2 :
    (∀ (v : Nat) (t : Tree) (mode : Bool) (tm : Option Nat)
       (orc : List ParseOutcome) (ts : List Nat),
      promValue (drainMicro 10 (callParseTree (mkQuiescent v (some t) [] tm orc ts) mode).2)
          ((callParseTree (mkQuiescent v (some t) [] tm orc ts) mode).1) = some t ∧
      (drainMicro 10 (callParseTree (mkQuiescent v (some t) [] tm orc ts) mode).2).invocations
          = [] ∧
      (drainMicro 10 (callParseTree (mkQuiescent v (some t) [] tm orc ts) mode).2).tree
          = some t) ∧
    (∀ (v : Nat) (t : Tree) (mode : Bool) (tm : Option Nat)
       (orc : List ParseOutcome) (ts : List Nat),
      (drainMicro 10
        (callParseTreeAndCountCalls (mkQuiescent v (some t) [] tm orc ts) mode).2).countResult
          = some 1) ∧
    ((drainMicro 20
        (callParseTreeAndCountCalls (mkQuiescent 1 (some tree0) [edit1] none [.ok] []) true).2
      ).countResult = some 2) ∧
    (let r1 := callParseTree (mkQuiescent 1 (some tree0) [edit1] none [.ok] []) true
     let r2 := callParseTree (drainMicro 20 r1.2) true
     let s4 := drainMicro 20 r2.2
     promValue s4 r2.1 = promValue s4 r1.1 ∧
     promValue s4 r2.1 = some ⟨100, 1, []⟩ ∧
     s4.invocations.length = 1) :=
  ⟨fun _ _ _ _ _ _ => ⟨rfl, rfl, rfl⟩,
   fun _ _ _ _ _ _ => rfl,
   rfl,
   ⟨rfl, rfl, rfl⟩⟩

/-- Claim C3, counterexample: after an earlier asynchronous call configured
the 10000µs budget, a synchronous call (`parseTree(false)`) performs its
parse with that budget still in effect — the invocation records
`some 10000`, not the `none` the claim requires ("no time budget in effect
... regardless of any time budget configured by an earlier asynchronous
call").  The second logged invocation is the one made by the synchronous
call. -/
theorem claimC3_counterexample :
    scenarioC3.invocations.get? 1 =
      some ⟨.live 1, some ⟨100, 0, [edit1]⟩, some 10000⟩ ∧
    ¬ (scenarioC3.invocations.get? 1).map Invocation.timeoutMicros = some none :=
  ⟨rfl, by decide⟩

/-- Claim C3, amended: a synchronous `parseTree` call never modifies the
parser's configured time budget — the parse runs under whatever budget `tm`
was most recently configured (so with no earlier asynchronous call,
`tm = none`, it runs with no budget and can only fail if the parser itself
errors); a budget configured by an earlier asynchronous call remains in
effect. -/
theorem claimC3 (v : Nat) (t : Tree) (e : Edit) (es : List Edit) (tm : Option Nat)
    (orc : List ParseOutcome) (ts : List Nat) :
    (drainMicro 10
        (callParseTree (mkQuiescent v (some t) (e :: es) tm (.ok :: orc) ts) false).2
      ).invocations = [⟨.live v, some ((e :: es).foldl Tree.edit t), tm⟩] ∧
    (drainMicro 10
        (callParseTree (mkQuiescent v (some t) (e :: es) tm (.ok :: orc) ts) false).2
      ).timeout = tm :=
  ⟨rfl, rfl⟩

/-- Claim C4: when a parse is performed over an existing tree,
`updateAndGetTree` returns the tree with *all* buffered edits applied one by
one in registration order (its applied trace is extended by exactly the
buffer, in order) and clears the buffer in the same atomic step (it runs
inside one event-loop continuation, so no observer can see a partial
drain); the incremental parser is then invoked with that edited tree as
baseline and an empty buffer; and applying edits in a different order is not
equivalent (witnessed on the spec-modelled span shift by a delete [5,10) and
an insert at 0). -/
theorem claimC4 :
    (∀ (s : EngineState) (t : Tree), s.tree = some t →
      updateAndGetTree s =
        (some ⟨t.id, t.srcVersion, t.editsApplied ++ s.edits⟩,
         { s with tree := some ⟨t.id, t.srcVersion, t.editsApplied ++ s.edits⟩,
                  edits := [] })) ∧
    (∀ (v : Nat) (t : Tree) (e : Edit) (es : List Edit) (tm : Option Nat)
       (orc : List ParseOutcome) (ts : List Nat),
      (drainMicro 10
          (callParseTree (mkQuiescent v (some t) (e :: es) tm (.ok :: orc) ts) true).2
        ).invocations =
          [⟨.live v, some ⟨t.id, t.srcVersion, t.editsApplied ++ (e :: es)⟩, some 10000⟩] ∧
      (drainMicro 10
          (callParseTree (mkQuiescent v (some t) (e :: es) tm (.ok :: orc) ts) true).2
        ).edits = []) ∧
    applyEditsToOffset [editDel, editIns] 4 ≠ applyEditsToOffset [editIns, editDel] 4 := by
  refine ⟨?_, ?_, by decide⟩
  · intro s t h
    simp [updateAndGetTree, h, foldl_tree_edit]
  · intro v t e es tm orc ts
    constructor
    · have h : (drainMicro 10
          (callParseTree (mkQuiescent v (some t) (e :: es) tm (.ok :: orc) ts) true).2
        ).invocations =
          [⟨.live v, some ((e :: es).foldl Tree.edit t), some 10000⟩] := rfl
      rw [foldl_tree_edit] at h
      exact h
    · rfl

/-- Witness for C4's hypothesis `s.tree = some t`, discharged at a concrete
state with one buffered edit. -/
theorem claimC4_witness :
    updateAndGetTree (mkQuiescent 1 (some tree0) [edit1] none [] []) =
      (some ⟨0, 0, [edit1]⟩,
       { mkQuiescent 1 (some tree0) [edit1] none [] [] with
           tree := some ⟨0, 0, [edit1]⟩, edits := [] }) :=
  claimC4.1 (mkQuiescent 1 (some tree0) [edit1] none [] []) tree0 rfl

/-- Claim C5: every Edit appended by `registerTreeEdits` satisfies
`startIndex ≤ oldEndIndex` and `startIndex ≤ newEndIndex` (offsets are
non-negative counts, and both ends are `rangeOffset` plus a non-negative
length), and its points are the zero-based row/column conversions of the
change's 1-based range and of the live model's `getPositionAt` (the
conversion function in force when the change event fires); the event appends
exactly one such Edit per change, in order. -/
theorem claimC5 (g : Nat → ModelPosition) (edits : List Edit)
    (changes : List ModelContentChange) :
    registerTreeEdits g edits changes = edits ++ changes.map (mkTreeEdit g) ∧
    ∀ c : ModelContentChange,
      (mkTreeEdit g c).startIndex ≤ (mkTreeEdit g c).oldEndIndex ∧
      (mkTreeEdit g c).startIndex ≤ (mkTreeEdit g c).newEndIndex ∧
      (mkTreeEdit g c).startPosition =
        ⟨c.range.startLineNumber - 1, c.range.startColumn - 1⟩ ∧
      (mkTreeEdit g c).oldEndPosition =
        ⟨c.range.endLineNumber - 1, c.range.endColumn - 1⟩ ∧
      (mkTreeEdit g c).newEndPosition =
        ⟨(g (c.rangeOffset + c.text.length)).lineNumber - 1,
         (g (c.rangeOffset + c.text.length)).column - 1⟩ :=
  ⟨registerTreeEdits_eq g edits changes,
   fun _ => ⟨Nat.le_add_right _ _, Nat.le_add_right _ _, rfl, rfl, rfl⟩⟩

/-- Claim C6: when no ending offset is supplied, `_retrieveTextAtPosition`
reads the bound model's text from `startIndex` to `startIndex + 5000`
(mapped through the model's offset-to-position conversion): the default
forward-read chunk size is the fixed constant 5000. -/
theorem claimC6 (m : TextModelAPI) (h : m.Coherent) (startIndex : Nat)
    (p : Option Point) :
    retrieveTextAtPosition m startIndex p none =
      (m.content.take (startIndex + 5000)).drop startIndex :=
  h startIndex (startIndex + 5000)

/-- Witness for C6: the concrete single-line model satisfies the
`ITextModel` contract, and reading from offset 1 with no ending offset
returns the rest of the (short) document. -/
theorem claimC6_witness :
    lineModel.Coherent ∧
    retrieveTextAtPosition lineModel 1 none none = ['b', 'c', 'd'] :=
  ⟨fun a b => rfl,
   (claimC6 lineModel (fun a b => rfl) 1 none).trans (by decide)⟩

/-- Claim C7: during the cooperative fallback every parser read is bound to
the snapshot frozen when the fallback began (version 1), never to the live
document: whatever live mutations `es1`, `es2` occur before either slice,
both slice invocations read `snap 1` with the same baseline — so any two
executions differing only in live mutations applied after the snapshot was
taken observe identical text — and the pending slice's snapshot binding is
untouched by registering live edits. -/
theorem claimC7 (es1 es2 es1' es2' : List Edit) :
    (scenarioC7 es1 es2).invocations =
      [⟨.live 1, some ⟨0, 0, [edit1]⟩, some 10000⟩,
       ⟨.snap 1, some ⟨0, 0, [edit1]⟩, some 5000⟩,
       ⟨.snap 1, some ⟨0, 0, [edit1]⟩, some 5000⟩] ∧
    (scenarioC7 es1 es2).invocations = (scenarioC7 es1' es2').invocations ∧
    (∀ es : List Edit,
      (es.foldl registerEditEvent (fallbackPending true [.err false, .ok] [5, 5])).idleQ =
        [.idle 1 (some ⟨0, 0, [edit1]⟩) 1]) := by
  have key : ∀ a b : List Edit, (scenarioC7 a b).invocations =
      [⟨.live 1, some ⟨0, 0, [edit1]⟩, some 10000⟩,
       ⟨.snap 1, some ⟨0, 0, [edit1]⟩, some 5000⟩,
       ⟨.snap 1, some ⟨0, 0, [edit1]⟩, some 5000⟩] := by
    intro a b
    obtain ⟨f1q, f1o, f1t, f1i, -, -, -, -, -⟩ :=
      foldRegister_frame a (fallbackPending true [.err false, .ok] [5, 5])
    have hstep1 := stepIdle_err
      (a.foldl registerEditEvent (fallbackPending true [.err false, .ok] [5, 5]))
      1 (some ⟨0, 0, [edit1]⟩) 1 false [.ok] 5 [5]
      (f1q.trans rfl) (f1o.trans rfl) (f1t.trans rfl)
    show (stepIdle (b.foldl registerEditEvent (stepIdle
      (a.foldl registerEditEvent (fallbackPending true [.err false, .ok] [5, 5]))))).invocations = _
    rw [hstep1]
    obtain ⟨f2q, -, f2t, f2i, -, -, -, -, -⟩ := foldRegister_frame b _
    rw [stepIdle_invocations _ 1 (some ⟨0, 0, [edit1]⟩) 1 5 []
      (f2q.trans rfl) (f2t.trans rfl), f2i]
    rw [show (a.foldl registerEditEvent
      (fallbackPending true [.err false, .ok] [5, 5])).invocations =
        [⟨.live 1, some ⟨0, 0, [edit1]⟩, some 10000⟩] from f1i.trans rfl]
    rfl
  exact ⟨key es1 es2, (key es1 es2).trans (key es1' es2').symm,
    fun es => ((foldRegister_frame es _).1).trans rfl⟩

set_option maxHeartbeats 16000000 in
/-- The complete run of two back-to-back `parseTree(true)` calls issued
before either resolves, over an arbitrary quiescent engine that requires a
parse (tree present, buffer non-empty) whose parse succeeds: caller A's
suspension resumes first and performs the one parse; caller B's suspension
resumes next, finds the fresh tree and an empty buffer, and takes the
cache-hit path; then A's `.then` callback and adoption settle A's promise. -/
lemma twoCallersRun_eq (v : Nat) (t : Tree) (e : Edit) (es : List Edit) (tm : Option Nat)
    (orc : List ParseOutcome) (ts : List Nat) :
    drainMicro 6 (callParseTree (callParseTree
        (mkQuiescent v (some t) (e :: es) tm (.ok :: orc) ts) true).2 true).2 =
      { liveVersion := v, tree := some ⟨100, v, []⟩, edits := [], nCalls := 3,
        currentOp := none, timeout := some 10000,
        promises := [⟨some ⟨100, v, []⟩, []⟩, ⟨some ⟨100, v, []⟩, []⟩,
                     ⟨some ⟨100, v, []⟩, []⟩],
        micro := [], idleQ := [], oracle := orc, idleTimes := ts,
        invocations := [⟨.live v, some (es.foldl Tree.edit (Tree.edit t e)), some 10000⟩],
        nextTreeId := 101, countResult := none } := rfl

/-- Claim C8: two `parseTree` calls issued before either resolves lead to a
single parser invocation for the required re-parse, not two: the second
caller's suspension resumes after the first operation has produced the new
tree, re-checks the state, finds no pending work, and both callers resolve
with the one tree that invocation produced (promise 0 is the first caller's,
promise 1 the second caller's). -/
theorem claimC8 (v : Nat) (t : Tree) (e : Edit) (es : List Edit) (tm : Option Nat)
    (orc : List ParseOutcome) (ts : List Nat) :
    (drainMicro 6 (callParseTree (callParseTree
        (mkQuiescent v (some t) (e :: es) tm (.ok :: orc) ts) true).2 true).2).invocations =
      [⟨.live v, some ((e :: es).foldl Tree.edit t), some 10000⟩] ∧
    promValue (drainMicro 6 (callParseTree (callParseTree
        (mkQuiescent v (some t) (e :: es) tm (.ok :: orc) ts) true).2 true).2)
      (callParseTree (mkQuiescent v (some t) (e :: es) tm (.ok :: orc) ts) true).1 =
      some ⟨100, v, []⟩ ∧
    promValue (drainMicro 6 (callParseTree (callParseTree
        (mkQuiescent v (some t) (e :: es) tm (.ok :: orc) ts) true).2 true).2)
      (callParseTree (callParseTree
        (mkQuiescent v (some t) (e :: es) tm (.ok :: orc) ts) true).2 true).1 =
      some ⟨100, v, []⟩ := by
  rw [twoCallersRun_eq]
  exact ⟨rfl, rfl, rfl⟩

/-- Claim C9: any exception of the synchronous attempt (kind `k`: timeout or
structural, never inspected) routes to the snapshot fallback loop; each
further failing slice (kinds `kinds`, arbitrary and arbitrarily many — no
retry bound) merely schedules another idle slice reading the same frozen
snapshot, and once a slice succeeds the caller's promise resolves with that
slice's tree — no error is ever surfaced to the caller (the source never
invokes a promise rejection). -/
theorem claimC9 (k : Bool) (kinds : List Bool) :
    promValue (scenarioC9 k kinds) 0 = some ⟨100, 1, []⟩ ∧
    (scenarioC9 k kinds).tree = some ⟨100, 1, []⟩ ∧
    (scenarioC9 k kinds).invocations.length = kinds.length + 2 ∧
    ∀ inv ∈ (scenarioC9 k kinds).invocations.drop 1,
      inv.source = .snap 1 ∧ inv.timeoutMicros = some 5000 := by
  have hs : scenarioC9start k kinds = pendingC9 kinds :=
    fallbackPending_eq k _ _
  have hloop := iterIdle_err kinds (pendingC9 kinds) 1 (some ⟨0, 0, [edit1]⟩) 1
    [.ok] 1 rfl rfl rfl
  have hrun : scenarioC9 k kinds = drainMicro 10 (stepIdle
      { liveVersion := 1, tree := some ⟨0, 0, [edit1]⟩, edits := [], nCalls := 1,
        currentOp := some 2,
        timeout := if kinds = [] then some 10000 else some 5000,
        promises := [⟨none, []⟩, ⟨none, [.treeSet 2]⟩, ⟨none, [.thenCb true 2, .adopt 0]⟩],
        micro := [], idleQ := [.idle 1 (some ⟨0, 0, [edit1]⟩) 1],
        oracle := [.ok], idleTimes := [5],
        invocations := [⟨.live 1, some ⟨0, 0, [edit1]⟩, some 10000⟩] ++
          List.replicate kinds.length ⟨.snap 1, some ⟨0, 0, [edit1]⟩, some 5000⟩,
        nextTreeId := 100, countResult := none }) := by
    show drainMicro 10 (stepIdle (iterIdle kinds.length (scenarioC9start k kinds))) = _
    rw [hs, hloop]
    simp [pendingC9, List.replicate_one]
  have hfin := finalSlice
    ([⟨.live 1, some ⟨0, 0, [edit1]⟩, some 10000⟩] ++
      List.replicate kinds.length ⟨.snap 1, some ⟨0, 0, [edit1]⟩, some 5000⟩)
    (if kinds = [] then some 10000 else some 5000)
  refine ⟨hrun ▸ hfin.1, hrun ▸ hfin.2.1, ?_, ?_⟩
  · rw [hrun, hfin.2.2]
    simp [Nat.add_comm, Nat.add_assoc, Nat.add_left_comm]
  · rw [hrun, hfin.2.2]
    intro inv hmem
    rcases (show (¬ kinds = [] ∧ inv = ⟨.snap 1, some ⟨0, 0, [edit1]⟩, some 5000⟩) ∨
        inv = ⟨.snap 1, some ⟨0, 0, [edit1]⟩, some 5000⟩ from by simpa using hmem) with
      ⟨-, h⟩ | h <;> rw [h] <;> exact ⟨rfl, rfl⟩

/-- Witness for C9's membership hypothesis, discharged at a concrete run
with one structural synchronous failure and one timed-out slice: the second
logged invocation reads the frozen snapshot under the slice budget, and the
caller's promise resolves with the slice tree. -/
theorem claimC9_witness :
    promValue (scenarioC9 true [false]) 0 = some ⟨100, 1, []⟩ ∧
    (⟨.snap 1, some ⟨0, 0, [edit1]⟩, some 5000⟩ : Invocation) ∈
      (scenarioC9 true [false]).invocations.drop 1 ∧
    ((⟨.snap 1, some ⟨0, 0, [edit1]⟩, some 5000⟩ : Invocation).source = .snap 1 ∧
     (⟨.snap 1, some ⟨0, 0, [edit1]⟩, some 5000⟩ : Invocation).timeoutMicros = some 5000) :=
  ⟨(claimC9 true [false]).1, by decide,
   (claimC9 true [false]).2.2.2 _ (by decide)⟩

/-- Claim C10 (implicit): `updateAndGetTree` on an engine with no current
tree returns `undefined` and leaves the whole state — in particular the edit
buffer — unchanged; consequently a first-ever parse issued with pending
edits leaves those edits buffered through the first operation (which parses
with `undefined` baseline), and the `.then` callback then triggers a second
parse pass that drains them onto the newly stored tree. -/
theorem claimC10 :
    (∀ s : EngineState, s.tree = none → updateAndGetTree s = (none, s)) ∧
    ((drainMicro 1 scenarioC10.2).edits = [edit1] ∧
     (drainMicro 1 scenarioC10.2).tree = some ⟨100, 1, []⟩) ∧
    ((drainMicro 20 scenarioC10.2).invocations =
        [⟨.live 1, none, some 10000⟩, ⟨.live 1, some ⟨100, 1, [edit1]⟩, some 10000⟩] ∧
     (drainMicro 20 scenarioC10.2).edits = [] ∧
     promValue (drainMicro 20 scenarioC10.2) scenarioC10.1 = some ⟨100, 1, []⟩) := by
  refine ⟨?_, ⟨rfl, rfl⟩, rfl, rfl, rfl⟩
  intro s h
  simp [updateAndGetTree, h]

/-- Witness for C10's hypothesis `s.tree = none`, discharged at a concrete
state with one buffered edit: the buffer survives untouched. -/
theorem claimC10_witness :
    updateAndGetTree (mkQuiescent 5 none [edit1] none [] []) =
      (none, mkQuiescent 5 none [edit1] none [] []) :=
  claimC10.1 (mkQuiescent 5 none [edit1] none [] []) rfl

end TreeSitter
